import Mathlib

/-!
Verification of the Retreivr download-orchestration engine (archiver.py)
against its specification.  The Python functions are shallowly embedded:
filesystem state is passed explicitly, fallible operations are modelled
with `Option`, and the nested retry loops become structural recursions.
-/

set_option maxHeartbeats 1000000

/-! ## Partial-file monitor (archiver.py, `is_partial_file_stuck`) -/

/-- Threshold from `is_partial_file_stuck`: `1024 * 512` bytes (512 KiB). -/
def STUCK_THRESHOLD : Nat := 1024 * 512

/-- One scratch-directory entry: the file name together with the result of
reading its size; `none` models `os.path.getsize` raising an exception. -/
structure ScratchEntry where
  name : String
  size : Option Nat
deriving DecidableEq

/-- `p` is a prefix of `s` (character lists; models Python `str.startswith`). -/
def strHasPrefix : List Char → List Char → Bool
  | [], _ => true
  | _ :: _, [] => false
  | a :: ps, b :: ss => a == b && strHasPrefix ps ss

/-- `suf` is a suffix of `s` (models Python `str.endswith`). -/
def strHasSuffix (suf s : List Char) : Bool :=
  strHasPrefix suf.reverse s.reverse

/-- The match test of the loop body: `f.startswith(vid) and f.endswith(".part")`. -/
def matchesPart (vid : String) (f : String) : Bool :=
  strHasPrefix vid.toList f.toList && strHasSuffix ".part".toList f.toList

/-- The `for f in os.listdir(temp_dir)` loop of `is_partial_file_stuck`:
return `true` at the first matching entry that is undersized or whose size
read fails, `false` if the scan finishes. -/
def stuckScan (vid : String) : List ScratchEntry → Bool
  | [] => false
  | e :: rest =>
    if matchesPart vid e.name then
      match e.size with
      | none => true
      | some n => if n < STUCK_THRESHOLD then true else stuckScan vid rest
    else stuckScan vid rest

/-- `is_partial_file_stuck(temp_dir, vid)`: the directory is `none` when
`os.path.isdir` is false (missing directory), otherwise its listing. -/
def is_part_file_stuck (temp_dir : Option (List ScratchEntry)) (vid : String) : Bool :=
  match temp_dir with
  | none => false
  | some files => stuckScan vid files

/-- An entry is "problematic" when it matches and is unreadable or undersized. -/
def problemEntry (vid : String) (e : ScratchEntry) : Prop :=
  matchesPart vid e.name = true ∧
    (e.size = none ∨ ∃ n, e.size = some n ∧ n < STUCK_THRESHOLD)

theorem stuckScan_eq_true_iff (vid : String) (files : List ScratchEntry) :
    stuckScan vid files = true ↔ ∃ e ∈ files, problemEntry vid e := by
  induction files with
  | nil => simp [stuckScan]
  | cons e rest ih =>
    by_cases hm : matchesPart vid e.name = true
    · cases hsz : e.size with
      | none =>
        simp only [stuckScan, hm, if_true, hsz]
        constructor
        · intro _
          exact ⟨e, List.mem_cons_self e rest, hm, Or.inl hsz⟩
        · intro _; trivial
      | some n =>
        by_cases hn : n < STUCK_THRESHOLD
        · simp only [stuckScan, hm, if_true, hsz, hn]
          constructor
          · intro _
            exact ⟨e, List.mem_cons_self e rest, hm, Or.inr ⟨n, hsz, hn⟩⟩
          · intro _; trivial
        · simp only [stuckScan, hm, if_true, hsz, hn, if_false]
          rw [ih]
          constructor
          · rintro ⟨e', he', hp⟩
            exact ⟨e', List.mem_cons_of_mem e he', hp⟩
          · rintro ⟨e', he', hp⟩
            rcases List.mem_cons.mp he' with heq | hmem
            · subst heq
              rcases hp.2 with hnone | ⟨m, hm', hlt⟩
              · rw [hsz] at hnone; cases hnone
              · rw [hsz] at hm'
                cases hm'
                exact absurd hlt hn
            · exact ⟨e', hmem, hp⟩
    · rw [Bool.not_eq_true] at hm
      simp only [stuckScan, hm, Bool.false_eq_true, if_false]
      rw [ih]
      constructor
      · rintro ⟨e', he', hp⟩
        exact ⟨e', List.mem_cons_of_mem e he', hp⟩
      · rintro ⟨e', he', hp⟩
        rcases List.mem_cons.mp he' with heq | hmem
        · subst heq; simp [problemEntry, hm] at hp
        · exact ⟨e', hmem, hp⟩

/-- Claim C4: for an existing scratch directory, a matching `.part` entry of
size below 512 KiB forces `stalled = true`; if every matching entry has a
readable size of at least 512 KiB the result is `false`; a matching entry
whose size read fails forces `true`. -/
theorem partial_monitor_policy (vid : String) (files : List ScratchEntry) :
    ((∃ e ∈ files, matchesPart vid e.name = true ∧
        ∃ n, e.size = some n ∧ n < STUCK_THRESHOLD) →
      is_part_file_stuck (some files) vid = true) ∧
    ((∀ e ∈ files, matchesPart vid e.name = true →
        ∃ n, e.size = some n ∧ STUCK_THRESHOLD ≤ n) →
      is_part_file_stuck (some files) vid = false) ∧
    ((∃ e ∈ files, matchesPart vid e.name = true ∧ e.size = none) →
      is_part_file_stuck (some files) vid = true) := by
  refine ⟨?_, ?_, ?_⟩
  · rintro ⟨e, he, hm, n, hsz, hlt⟩
    show stuckScan vid files = true
    exact (stuckScan_eq_true_iff vid files).mpr ⟨e, he, hm, Or.inr ⟨n, hsz, hlt⟩⟩
  · intro hall
    show stuckScan vid files = false
    by_contra hne
    have htrue : stuckScan vid files = true := by
      cases h : stuckScan vid files with
      | false => exact absurd h hne
      | true => rfl
    rcases (stuckScan_eq_true_iff vid files).mp htrue with ⟨e, he, hm, hbad⟩
    rcases hall e he hm with ⟨n, hsz, hge⟩
    rcases hbad with hnone | ⟨m, hm', hlt⟩
    · rw [hsz] at hnone; cases hnone
    · rw [hsz] at hm'
      cases hm'
      exact absurd hlt (not_lt.mpr hge)
  · rintro ⟨e, he, hm, hnone⟩
    show stuckScan vid files = true
    exact (stuckScan_eq_true_iff vid files).mpr ⟨e, he, hm, Or.inl hnone⟩

theorem partial_monitor_policy_witness :
    is_part_file_stuck (some [⟨"v1abc.part", some 1000⟩]) "v1" = true ∧
    is_part_file_stuck (some [⟨"v1abc.part", some 600000⟩]) "v1" = false ∧
    is_part_file_stuck (some [⟨"v1abc.part", none⟩]) "v1" = true :=
  ⟨(partial_monitor_policy "v1" [⟨"v1abc.part", some 1000⟩]).1
      ⟨⟨"v1abc.part", some 1000⟩, by simp, by decide, 1000, rfl, by decide⟩,
   (partial_monitor_policy "v1" [⟨"v1abc.part", some 600000⟩]).2.1
      (by
        rintro e he _
        simp only [List.mem_singleton] at he
        subst he
        exact ⟨600000, rfl, by decide⟩),
   (partial_monitor_policy "v1" [⟨"v1abc.part", none⟩]).2.2
      ⟨⟨"v1abc.part", none⟩, by simp, by decide, rfl⟩⟩

/-- Claim C10: if the scratch directory does not exist at all, the monitor
reports `stalled = false` for every identifier. -/
theorem missing_dir_not_stuck (vid : String) :
    is_part_file_stuck none vid = false := rfl

/-! ## Metadata embedding: date tag (archiver.py, `embed_metadata`) -/

/-- Lines 293–296: `date_tag = ""`, then if `len(upload_date) == 8 and
upload_date.isdigit()` reformat `YYYYMMDD` to `YYYY-MM-DD`.  Digits are
modelled as ASCII digits. -/
def date_tag (upload_date : String) : String :=
  if upload_date.toList.length = 8 && upload_date.toList.all Char.isDigit then
    String.mk (upload_date.toList.take 4) ++ "-" ++
      String.mk ((upload_date.toList.drop 4).take 2) ++ "-" ++
      String.mk ((upload_date.toList.drop 6).take 2)
  else ""

/-- Lines 343–344: `if date_tag: cmd.extend(["-metadata", f"date={date_tag}"])`.
The produced ffmpeg argument fragment. -/
def dateMetadataArgs (upload_date : String) : List String :=
  if date_tag upload_date ≠ "" then ["-metadata", "date=" ++ date_tag upload_date]
  else []

theorem date_tag_ne_empty_of_cond (u : String)
    (h : (u.toList.length = 8 && u.toList.all Char.isDigit) = true) :
    date_tag u ≠ "" := by
  intro heq
  rw [date_tag, if_pos h] at heq
  have hlen := congrArg String.length heq
  simp only [String.length_append] at hlen
  have h1 : String.length "-" = 1 := rfl
  have h0 : String.length "" = 0 := rfl
  rw [h1, h0] at hlen
  omega

/-- Claim C9: a date tag is emitted iff the upload date is exactly 8 digits,
in which case it is the hyphenated reformatting; `"20230115"` yields
`"2023-01-15"`, and non-8-digit inputs yield no date argument. -/
theorem date_tag_normalization (u : String) :
    (dateMetadataArgs u ≠ [] ↔
      (u.toList.length = 8 && u.toList.all Char.isDigit) = true) ∧
    dateMetadataArgs "20230115" = ["-metadata", "date=2023-01-15"] ∧
    dateMetadataArgs "2023" = [] ∧
    dateMetadataArgs "2023011a" = [] ∧
    dateMetadataArgs "" = [] := by
  refine ⟨?_, by decide, by decide, by decide, by decide⟩
  constructor
  · intro hne
    by_contra hcond
    have hfalse : (u.toList.length = 8 && u.toList.all Char.isDigit) = false := by
      cases h : (u.toList.length = 8 && u.toList.all Char.isDigit) with
      | false => rfl
      | true => exact absurd h hcond
    have : date_tag u = "" := by rw [date_tag, hfalse]; rfl
    rw [dateMetadataArgs, if_neg (by simp [this])] at hne
    exact hne rfl
  · intro hcond
    have hne := date_tag_ne_empty_of_cond u hcond
    rw [dateMetadataArgs, if_pos hne]
    simp

/-- Claim C9 witness: the biconditional applied at a concrete 8-digit input. -/
theorem date_tag_normalization_witness :
    dateMetadataArgs "20230115" ≠ [] :=
  (date_tag_normalization "20230115").1.mpr (by decide)

/-! ## Metadata embedding: file effects (archiver.py, `embed_metadata`) -/

/-- Outcome of the tagging `try` block of `embed_metadata`: the ffmpeg remux
and the atomic `os.replace` both succeed (`ok` carries the tagged file
content), the ffmpeg subprocess exits nonzero (`CalledProcessError`), or a
later step such as `os.replace` raises (the generic `except Exception`). -/
inductive TagOutcome where
  | ok (tagged : String)
  | ffmpegErr
  | replaceErr
deriving DecidableEq

/-- Filesystem slice touched by `embed_metadata`: the content of
`local_file`, whether the `.tagged` temporary exists, and whether the
downloaded thumbnail exists. -/
structure EmbedFs where
  localContent : String
  tmpExists : Bool
  thumbExists : Bool
deriving DecidableEq

/-- The `try` body (lines 322–361): write the tagged copy to `tmp_path`,
then `os.replace(tmp_path, local_file)`.  An exception propagates to the
handlers with the original content untouched. -/
def tagAttempt (outcome : TagOutcome) (st : EmbedFs) : Except Unit EmbedFs :=
  match outcome with
  | .ok tagged => .ok { st with localContent := tagged, tmpExists := false }
  | .ffmpegErr => .error ()
  | .replaceErr => .error ()

/-- `embed_metadata` (lines 317–379): `tempfile.mkstemp` creates the
temporary, the `try` body runs, both `except` clauses `os.unlink(tmp_path)`,
and the `finally` clause deletes the thumbnail when one was downloaded.
Every outcome is handled — the function is total, so an embedding failure
never propagates to the caller. -/
def embed_metadata (outcome : TagOutcome) (thumbDownloaded : Bool)
    (st : EmbedFs) : EmbedFs :=
  let st1 : EmbedFs := { st with tmpExists := true }
  let st2 : EmbedFs :=
    match tagAttempt outcome st1 with
    | .ok s => s
    | .error _ => { st1 with tmpExists := false }
  if thumbDownloaded then { st2 with thumbExists := false } else st2

/-- Claim C5: on success the original is replaced by the tagged temporary;
on either failure mode the temporary is discarded and the original content
is untouched; whenever a thumbnail was downloaded it is deleted afterward
regardless of outcome.  Totality of `embed_metadata` reflects that no
tagging failure aborts the item or the run. -/
theorem embed_metadata_effects (tagged : String) (thumb : Bool) (st : EmbedFs) :
    (embed_metadata (.ok tagged) thumb st).localContent = tagged ∧
    (embed_metadata (.ok tagged) thumb st).tmpExists = false ∧
    (embed_metadata .ffmpegErr thumb st).localContent = st.localContent ∧
    (embed_metadata .ffmpegErr thumb st).tmpExists = false ∧
    (embed_metadata .replaceErr thumb st).localContent = st.localContent ∧
    (embed_metadata .replaceErr thumb st).tmpExists = false ∧
    (∀ oc : TagOutcome, (embed_metadata oc true st).thumbExists = false) := by
  refine ⟨?_, ?_, ?_, ?_, ?_, ?_, ?_⟩
  · cases thumb <;> rfl
  · cases thumb <;> rfl
  · cases thumb <;> rfl
  · cases thumb <;> rfl
  · cases thumb <;> rfl
  · cases thumb <;> rfl
  · intro oc; cases oc <;> rfl

/-! ## Final container conversion (archiver.py, `download_with_ytdlp`, post-step) -/

/-- Split a character list at its last dot: returns the characters before
it and, when a dot exists, the characters after it.  Models
`os.path.splitext(p)` composed with `.lstrip(".")` on the extension part. -/
def splitextAux : List Char → List Char × Option (List Char)
  | [] => ([], none)
  | c :: cs =>
    match splitextAux cs with
    | (b, some e) => (c :: b, some e)
    | (b, none) => if c = '.' then ([], some b) else (c :: b, none)

/-- `(os.path.splitext(p)[0], os.path.splitext(p)[1].lstrip("."))`. -/
def splitext (p : String) : String × String :=
  match splitextAux p.toList with
  | (b, some e) => (String.mk b, String.mk e)
  | (b, none) => (String.mk b, "")

/-- Python `str.lower()` over ASCII. -/
def strLower (s : String) : String :=
  String.mk (s.toList.map Char.toLower)

/-- What the final-format post-step did to the chosen file. -/
inductive ConvertAction where
  | noop
  | refused
  | remuxed (converted : String)
  | remuxFailed
deriving DecidableEq

/-- Lines 486–504 of `download_with_ytdlp`: with a configured
`final_format`, compute `current_ext`; refuse `mp4 -> webm`; otherwise on a
mismatch run an ffmpeg stream-copy remux into `base.desired` (removing the
original on success, keeping it on failure).  Returns the resulting path
and the action taken. -/
def finalConvert (chosen : String) (final_format : Option String)
    (remuxOk : Bool) : String × ConvertAction :=
  match final_format with
  | none => (chosen, .noop)
  | some desired =>
    let current := strLower (splitext chosen).2
    if current = "mp4" ∧ desired = "webm" then (chosen, .refused)
    else if current ≠ desired then
      let converted := (splitext chosen).1 ++ "." ++ desired
      if remuxOk then (converted, .remuxed converted)
      else (chosen, .remuxFailed)
    else (chosen, .noop)

/-- Claim C1 counterexample: a finished `.webm` file with requested final
container `mp4` is NOT refused — the stream-copy remux is attempted and an
`mp4` output replaces the source. -/
theorem webm_to_mp4_not_refused :
    finalConvert "a.webm" (some "mp4") true =
      ("a.mp4", ConvertAction.remuxed "a.mp4") ∧
    finalConvert "a.webm" (some "mp4") true ≠
      ("a.webm", ConvertAction.refused) := by
  refine ⟨rfl, ?_⟩
  decide

/-- Claim C1 (amended): the refused direction is `mp4 -> webm` — a finished
mp4 with requested webm container is refused with the source unchanged and
no remux run; every other extension mismatch is attempted via stream-copy
remux; a matching extension is a no-op. -/
theorem container_conversion_policy (chosen desired : String) (rOk : Bool) :
    (strLower (splitext chosen).2 = "mp4" → desired = "webm" →
      finalConvert chosen (some desired) rOk = (chosen, ConvertAction.refused)) ∧
    (¬(strLower (splitext chosen).2 = "mp4" ∧ desired = "webm") →
      strLower (splitext chosen).2 ≠ desired →
      finalConvert chosen (some desired) rOk =
        (if rOk then (((splitext chosen).1 ++ "." ++ desired),
            ConvertAction.remuxed ((splitext chosen).1 ++ "." ++ desired))
          else (chosen, ConvertAction.remuxFailed))) ∧
    (strLower (splitext chosen).2 = desired →
      finalConvert chosen (some desired) rOk = (chosen, ConvertAction.noop)) := by
  refine ⟨?_, ?_, ?_⟩
  · intro hcur hdes
    simp only [finalConvert, hcur, hdes, and_self, if_true, if_pos]
  · intro hnot hne
    rw [finalConvert]
    rw [if_neg hnot, if_pos hne]
  · intro heq
    have hnot : ¬(strLower (splitext chosen).2 = "mp4" ∧ desired = "webm") := by
      rintro ⟨h1, h2⟩
      rw [h1, h2] at heq
      exact absurd heq (by decide)
    rw [finalConvert]
    rw [if_neg hnot, if_neg (by simp [heq])]

/-- Claim C1 (amended) witness: the three branches at concrete inputs. -/
theorem container_conversion_policy_witness :
    finalConvert "x.mp4" (some "webm") true = ("x.mp4", ConvertAction.refused) ∧
    finalConvert "x.webm" (some "mp4") true = ("x.mp4", ConvertAction.remuxed "x.mp4") ∧
    finalConvert "x.mp4" (some "mp4") false = ("x.mp4", ConvertAction.noop) :=
  ⟨(container_conversion_policy "x.mp4" "webm" true).1 (by decide) rfl,
   by
    have h := (container_conversion_policy "x.webm" "mp4" true).2.1
      (by decide) (by decide)
    rw [h]
    decide,
   (container_conversion_policy "x.mp4" "mp4" false).2.2 (by decide)⟩

/-! ## Extraction retry loop (archiver.py, `download_with_ytdlp`) -/

/-- `MAX_VIDEO_RETRIES = 4`: hard cap of full passes over the profile chain. -/
def MAX_VIDEO_RETRIES : Nat := 4

/-- `EXTRACTOR_RETRIES = 2`: retries per extractor profile. -/
def EXTRACTOR_RETRIES : Nat := 2

/-- The fixed `extractor_chain` order: android, tv_embedded, web. -/
def extractorChain : List String := ["android", "tv_embedded", "web"]

/-- `f.startswith(vid) and f.endswith(".webm")` (line 470). -/
def isWebmFile (vid f : String) : Bool :=
  strHasPrefix vid.toList f.toList && strHasSuffix ".webm".toList f.toList

/-- `f.startswith(vid) and f.endswith(".mp4")` (line 475). -/
def isMp4File (vid f : String) : Bool :=
  strHasPrefix vid.toList f.toList && strHasSuffix ".mp4".toList f.toList

/-- Lines 467–477: scan the scratch listing for a `.webm` match first, then
fall back to an `.mp4` match; `none` when neither exists. -/
def chooseOutput (vid : String) (files : List String) : Option String :=
  match files.find? (fun f => isWebmFile vid f) with
  | some f => some f
  | none => files.find? (fun f => isMp4File vid f)

/-- Net result of the `k`-th individual extraction attempt: the environment
`oc` gives `none` when `extract_info` raised or returned nothing (lines
456–465), otherwise the files the attempt left in the wiped-and-recreated
scratch directory; a `some` listing is then scanned with `chooseOutput`. -/
def attemptResult (vid : String) (oc : Nat → Option (List String)) (k : Nat) :
    Option String :=
  match oc k with
  | none => none
  | some files => chooseOutput vid files

/-- Innermost loop (`for _ in range(EXTRACTOR_RETRIES)`, lines 421–507):
`k` is the global attempt counter.  Returns the chosen path, if any, and
one copy of the profile name per attempt actually performed. -/
def tryRetries (vid : String) (oc : Nat → Option (List String)) (name : String) :
    Nat → Nat → Option String × List String
  | _, 0 => (none, [])
  | k, n + 1 =>
    match attemptResult vid oc k with
    | some f => (some f, [name])
    | none =>
      let r := tryRetries vid oc name (k + 1) n
      (r.1, name :: r.2)

/-- Middle loop (`for client_name, headers in extractor_chain`, line 418). -/
def tryChain (vid : String) (oc : Nat → Option (List String)) :
    Nat → List String → Option String × List String
  | _, [] => (none, [])
  | k, name :: rest =>
    let r := tryRetries vid oc name k EXTRACTOR_RETRIES
    match r.1 with
    | some _ => r
    | none =>
      let r2 := tryChain vid oc (k + EXTRACTOR_RETRIES) rest
      (r2.1, r.2 ++ r2.2)

/-- Outer loop (`for attempt in range(MAX_VIDEO_RETRIES)`, line 415). -/
def tryPasses (vid : String) (oc : Nat → Option (List String)) :
    Nat → Nat → Option String × List String
  | 0, _ => (none, [])
  | p + 1, k =>
    let r := tryChain vid oc k extractorChain
    match r.1 with
    | some _ => r
    | none =>
      let r2 := tryPasses vid oc p (k + extractorChain.length * EXTRACTOR_RETRIES)
      (r2.1, r.2 ++ r2.2)

/-- `download_with_ytdlp`, reduced to its retry skeleton: run up to
`MAX_VIDEO_RETRIES` passes over the chain, two retries per profile, first
matching output wins, `None` after exhaustion (line 512). -/
def download_with_ytdlp (vid : String) (oc : Nat → Option (List String)) :
    Option String × List String :=
  tryPasses vid oc MAX_VIDEO_RETRIES 0

/-- First-some choice on optional indices. -/
def ofirst : Option Nat → Option Nat → Option Nat
  | some j, _ => some j
  | none, b => b

/-- Index of the first successful attempt among `k, k+1, …, k+n-1`. -/
def firstSucc (vid : String) (oc : Nat → Option (List String)) :
    Nat → Nat → Option Nat
  | _, 0 => none
  | k, n + 1 =>
    if (attemptResult vid oc k).isSome then some k
    else firstSucc vid oc (k + 1) n

/-- Number of attempts the loop performs out of the window `k, …, k+n-1`:
everything up to and including the first success, else all `n`. -/
def consumedCnt (vid : String) (oc : Nat → Option (List String)) :
    Nat → Nat → Nat
  | _, 0 => 0
  | k, n + 1 =>
    if (attemptResult vid oc k).isSome then 1
    else consumedCnt vid oc (k + 1) n + 1

/-- Profile schedule of one pass over a chain. -/
def chainSched : List String → List String
  | [] => []
  | nm :: rest => List.replicate EXTRACTOR_RETRIES nm ++ chainSched rest

/-- Profile schedule of `p` passes. -/
def passSched : Nat → List String
  | 0 => []
  | p + 1 => chainSched extractorChain ++ passSched p

/-- The full 24-attempt schedule of `download_with_ytdlp`. -/
def fullSchedule : List String := passSched MAX_VIDEO_RETRIES

theorem firstSucc_append (vid : String) (oc : Nat → Option (List String)) :
    ∀ m k n, firstSucc vid oc k (m + n) =
      ofirst (firstSucc vid oc k m) (firstSucc vid oc (k + m) n) := by
  intro m
  induction m with
  | zero =>
    intro k n
    simp [firstSucc, ofirst, Nat.zero_add]
  | succ m ih =>
    intro k n
    have hsum : m + 1 + n = (m + n) + 1 := by omega
    rw [hsum]
    show (if (attemptResult vid oc k).isSome then some k
        else firstSucc vid oc (k + 1) (m + n)) = _
    cases h : (attemptResult vid oc k).isSome with
    | true =>
      simp only [if_true, firstSucc, h, ofirst]
    | false =>
      simp only [h, Bool.false_eq_true, if_false, firstSucc]
      rw [ih (k + 1) n]
      have : k + 1 + m = k + (m + 1) := by omega
      rw [this]

theorem consumedCnt_append (vid : String) (oc : Nat → Option (List String)) :
    ∀ m k n, consumedCnt vid oc k (m + n) =
      if (firstSucc vid oc k m).isSome then consumedCnt vid oc k m
      else m + consumedCnt vid oc (k + m) n := by
  intro m
  induction m with
  | zero =>
    intro k n
    simp [firstSucc, consumedCnt, Nat.zero_add]
  | succ m ih =>
    intro k n
    have hsum : m + 1 + n = (m + n) + 1 := by omega
    rw [hsum]
    show (if (attemptResult vid oc k).isSome then 1
        else consumedCnt vid oc (k + 1) (m + n) + 1) = _
    cases h : (attemptResult vid oc k).isSome with
    | true =>
      simp only [if_true, firstSucc, consumedCnt, h, Option.isSome_some]
    | false =>
      simp only [h, Bool.false_eq_true, if_false, firstSucc, consumedCnt]
      rw [ih (k + 1) n]
      cases h2 : (firstSucc vid oc (k + 1) m).isSome with
      | true => simp only [if_true]
      | false =>
        simp only [Bool.false_eq_true, if_false]
        have : k + 1 + m = k + (m + 1) := by omega
        rw [this]
        omega

theorem consumedCnt_le (vid : String) (oc : Nat → Option (List String)) :
    ∀ n k, consumedCnt vid oc k n ≤ n := by
  intro n
  induction n with
  | zero => intro k; simp [consumedCnt]
  | succ n ih =>
    intro k
    show (if (attemptResult vid oc k).isSome then 1
        else consumedCnt vid oc (k + 1) n + 1) ≤ n + 1
    cases h : (attemptResult vid oc k).isSome with
    | true => simp
    | false =>
      simp only [Bool.false_eq_true, if_false]
      have := ih (k + 1)
      omega

theorem consumedCnt_of_none (vid : String) (oc : Nat → Option (List String)) :
    ∀ n k, firstSucc vid oc k n = none → consumedCnt vid oc k n = n := by
  intro n
  induction n with
  | zero => intro k _; rfl
  | succ n ih =>
    intro k hnone
    rw [firstSucc] at hnone
    rw [consumedCnt]
    cases h : (attemptResult vid oc k).isSome with
    | true => rw [h] at hnone; simp at hnone
    | false =>
      rw [h] at hnone
      simp only [Bool.false_eq_true, if_false] at hnone ⊢
      rw [ih (k + 1) hnone]

theorem firstSucc_eq_none_iff (vid : String) (oc : Nat → Option (List String)) :
    ∀ n k, firstSucc vid oc k n = none ↔
      ∀ i, k ≤ i → i < k + n → attemptResult vid oc i = none := by
  intro n
  induction n with
  | zero =>
    intro k
    constructor
    · intro _ i h1 h2
      omega
    · intro _; rfl
  | succ n ih =>
    intro k
    rw [firstSucc]
    cases h : (attemptResult vid oc k).isSome with
    | true =>
      simp only [if_true]
      constructor
      · intro hc; cases hc
      · intro hall
        have := hall k (le_refl k) (by omega)
        rw [this] at h
        cases h
    | false =>
      simp only [Bool.false_eq_true, if_false]
      rw [ih (k + 1)]
      constructor
      · intro hall i h1 h2
        rcases Nat.eq_or_lt_of_le h1 with heq | hlt
        · subst heq
          exact Option.not_isSome_iff_eq_none.mp (by rw [h]; exact Bool.false_ne_true)
        · exact hall i hlt (by omega)
      · intro hall i h1 h2
        exact hall i (by omega) (by omega)

theorem firstSucc_spec_some (vid : String) (oc : Nat → Option (List String)) :
    ∀ n k j, firstSucc vid oc k n = some j →
      k ≤ j ∧ j < k + n ∧ (attemptResult vid oc j).isSome = true ∧
        ∀ i, k ≤ i → i < j → attemptResult vid oc i = none := by
  intro n
  induction n with
  | zero => intro k j hc; cases hc
  | succ n ih =>
    intro k j hj
    rw [firstSucc] at hj
    cases h : (attemptResult vid oc k).isSome with
    | true =>
      rw [h] at hj
      simp only [if_true] at hj
      cases hj
      exact ⟨le_refl k, by omega, h, fun i h1 h2 => by omega⟩
    | false =>
      rw [h] at hj
      simp only [Bool.false_eq_true, if_false] at hj
      rcases ih (k + 1) j hj with ⟨h1, h2, h3, h4⟩
      refine ⟨by omega, by omega, h3, ?_⟩
      intro i hi1 hi2
      rcases Nat.eq_or_lt_of_le hi1 with heq | hlt
      · subst heq
        exact Option.not_isSome_iff_eq_none.mp (by rw [h]; exact Bool.false_ne_true)
      · exact h4 i hlt hi2

theorem take_append_len {α : Type} (l₁ l₂ : List α) (n : Nat) :
    (l₁ ++ l₂).take (l₁.length + n) = l₁ ++ l₂.take n :=
  List.take_append n

theorem tryRetries_spec (vid : String) (oc : Nat → Option (List String))
    (name : String) : ∀ n k,
    tryRetries vid oc name k n =
      ((firstSucc vid oc k n).bind (attemptResult vid oc),
        List.replicate (consumedCnt vid oc k n) name) := by
  intro n
  induction n with
  | zero => intro k; rfl
  | succ n ih =>
    intro k
    cases h : attemptResult vid oc k with
    | some f =>
      simp only [tryRetries, h, firstSucc, consumedCnt, Option.isSome_some,
        if_true, Option.some_bind, List.replicate]
    | none =>
      simp only [tryRetries, h, firstSucc, consumedCnt, Option.isSome_none,
        Bool.false_eq_true, if_false]
      rw [ih (k + 1)]
      simp [List.replicate]

theorem tryChain_spec (vid : String) (oc : Nat → Option (List String)) :
    ∀ names k,
    tryChain vid oc k names =
      ((firstSucc vid oc k (names.length * EXTRACTOR_RETRIES)).bind
          (attemptResult vid oc),
        (chainSched names).take
          (consumedCnt vid oc k (names.length * EXTRACTOR_RETRIES))) := by
  intro names
  induction names with
  | nil => intro k; rfl
  | cons name rest ih =>
    intro k
    have hlen : (name :: rest).length * EXTRACTOR_RETRIES
        = EXTRACTOR_RETRIES + rest.length * EXTRACTOR_RETRIES := by
      simp only [List.length_cons]
      rw [Nat.succ_mul]
      omega
    rw [hlen, firstSucc_append vid oc EXTRACTOR_RETRIES k
          (rest.length * EXTRACTOR_RETRIES),
        consumedCnt_append vid oc EXTRACTOR_RETRIES k
          (rest.length * EXTRACTOR_RETRIES)]
    simp only [tryChain]
    rw [tryRetries_spec vid oc name EXTRACTOR_RETRIES k]
    cases hf : firstSucc vid oc k EXTRACTOR_RETRIES with
    | some j =>
      rcases firstSucc_spec_some vid oc EXTRACTOR_RETRIES k j hf with ⟨-, -, h3, -⟩
      rcases Option.isSome_iff_exists.mp h3 with ⟨f, hfv⟩
      simp only [Option.some_bind, hfv, ofirst, Option.isSome_some, if_true]
      have hc : consumedCnt vid oc k EXTRACTOR_RETRIES ≤ EXTRACTOR_RETRIES :=
        consumedCnt_le vid oc EXTRACTOR_RETRIES k
      rw [chainSched, List.take_append_of_le_length
        (by simpa using hc), List.take_replicate,
        Nat.min_eq_left hc]
    | none =>
      simp only [Option.none_bind, ofirst, Option.isSome_none,
        Bool.false_eq_true, if_false]
      rw [ih (k + EXTRACTOR_RETRIES)]
      rw [consumedCnt_of_none vid oc EXTRACTOR_RETRIES k hf]
      have ht := take_append_len (List.replicate EXTRACTOR_RETRIES name)
        (chainSched rest)
        (consumedCnt vid oc (k + EXTRACTOR_RETRIES)
          (rest.length * EXTRACTOR_RETRIES))
      simp only [List.length_replicate] at ht
      rw [chainSched, ht]

theorem chainSched_extractorChain_len :
    (chainSched extractorChain).length = 6 := rfl

theorem tryPasses_spec (vid : String) (oc : Nat → Option (List String)) :
    ∀ p k,
    tryPasses vid oc p k =
      ((firstSucc vid oc k (p * 6)).bind (attemptResult vid oc),
        (passSched p).take (consumedCnt vid oc k (p * 6))) := by
  intro p
  induction p with
  | zero => intro k; rfl
  | succ p ih =>
    intro k
    have hmul : (p + 1) * 6 = 6 + p * 6 := by omega
    rw [hmul, firstSucc_append vid oc 6 k (p * 6),
        consumedCnt_append vid oc 6 k (p * 6)]
    simp only [tryPasses]
    rw [tryChain_spec vid oc extractorChain k]
    have hchl : extractorChain.length * EXTRACTOR_RETRIES = 6 := rfl
    rw [hchl]
    cases hf : firstSucc vid oc k 6 with
    | some j =>
      rcases firstSucc_spec_some vid oc 6 k j hf with ⟨-, -, h3, -⟩
      rcases Option.isSome_iff_exists.mp h3 with ⟨f, hfv⟩
      simp only [Option.some_bind, hfv, ofirst, Option.isSome_some, if_true]
      have hc : consumedCnt vid oc k 6 ≤ 6 := consumedCnt_le vid oc 6 k
      rw [passSched, List.take_append_of_le_length
        (by rw [chainSched_extractorChain_len]; exact hc)]
    | none =>
      simp only [Option.none_bind, ofirst, Option.isSome_none,
        Bool.false_eq_true, if_false]
      rw [ih (k + 6)]
      rw [consumedCnt_of_none vid oc 6 k hf]
      have ht := take_append_len (chainSched extractorChain) (passSched p)
        (consumedCnt vid oc (k + 6) (p * 6))
      rw [chainSched_extractorChain_len] at ht
      rw [passSched, ht]
      rfl

/-- Claim C8: extraction performs at most 4 passes × 3 profiles × 2 retries
= 24 attempts, in the fixed schedule android, android, tv_embedded,
tv_embedded, web, web repeated per pass; the first attempt that leaves a
matching file (identifier prefix, `.webm` preferred over `.mp4`) returns
its path immediately, and exhausting every attempt returns no path. -/
theorem extraction_loop_spec (vid : String) (oc : Nat → Option (List String)) :
    (download_with_ytdlp vid oc).1 =
      (firstSucc vid oc 0 24).bind (attemptResult vid oc) ∧
    (download_with_ytdlp vid oc).2 =
      fullSchedule.take (consumedCnt vid oc 0 24) ∧
    fullSchedule =
      ["android", "android", "tv_embedded", "tv_embedded", "web", "web",
       "android", "android", "tv_embedded", "tv_embedded", "web", "web",
       "android", "android", "tv_embedded", "tv_embedded", "web", "web",
       "android", "android", "tv_embedded", "tv_embedded", "web", "web"] ∧
    (firstSucc vid oc 0 24 = none ↔
      ∀ i, i < 24 → attemptResult vid oc i = none) ∧
    (∀ j, firstSucc vid oc 0 24 = some j →
      j < 24 ∧ (attemptResult vid oc j).isSome = true ∧
        ∀ i, i < j → attemptResult vid oc i = none) ∧
    (∀ files g f, chooseOutput vid files = some f → g ∈ files →
      isWebmFile vid g = true → isWebmFile vid f = true) ∧
    (∀ files f, chooseOutput vid files = some f →
      f ∈ files ∧ (isWebmFile vid f = true ∨ isMp4File vid f = true)) ∧
    (∀ files, (∀ f ∈ files, isWebmFile vid f = false ∧ isMp4File vid f = false) →
      chooseOutput vid files = none) := by
  have hdl := tryPasses_spec vid oc MAX_VIDEO_RETRIES 0
  have h24 : MAX_VIDEO_RETRIES * 6 = 24 := rfl
  rw [h24] at hdl
  refine ⟨?_, ?_, by decide, ?_, ?_, ?_, ?_, ?_⟩
  · rw [download_with_ytdlp, hdl]
  · rw [download_with_ytdlp, hdl, fullSchedule]
  · rw [firstSucc_eq_none_iff vid oc 24 0]
    constructor
    · intro hall i hi
      exact hall i (by omega) (by omega)
    · intro hall i _ hi
      exact hall i (by omega)
  · intro j hj
    rcases firstSucc_spec_some vid oc 24 0 j hj with ⟨h1, h2, h3, h4⟩
    exact ⟨by omega, h3, fun i hi => h4 i (by omega) hi⟩
  · intro files g f hc hg hgw
    rw [chooseOutput] at hc
    cases h1 : files.find? (fun f => isWebmFile vid f) with
    | some w =>
      rw [h1] at hc
      cases hc
      exact List.find?_some h1
    | none =>
      exact absurd hgw (by simpa using List.find?_eq_none.mp h1 g hg)
  · intro files f hc
    rw [chooseOutput] at hc
    cases h1 : files.find? (fun f => isWebmFile vid f) with
    | some w =>
      rw [h1] at hc
      cases hc
      exact ⟨List.mem_of_find?_eq_some h1, Or.inl (List.find?_some h1)⟩
    | none =>
      rw [h1] at hc
      exact ⟨List.mem_of_find?_eq_some hc, Or.inr (List.find?_some hc)⟩
  · intro files hall
    rw [chooseOutput]
    have hw : files.find? (fun f => isWebmFile vid f) = none :=
      List.find?_eq_none.mpr (fun x hx => by simp [(hall x hx).1])
    have hm : files.find? (fun f => isMp4File vid f) = none :=
      List.find?_eq_none.mpr (fun x hx => by simp [(hall x hx).2])
    rw [hw, hm]

/-- Claim C8 witness: with every attempt leaving an empty scratch directory
the loop exhausts all 24 attempts and returns no path. -/
theorem extraction_loop_spec_witness :
    (download_with_ytdlp "v" (fun _ => some [])).1 = none ∧
    (download_with_ytdlp "v" (fun _ => some [])).2 =
      fullSchedule.take (consumedCnt "v" (fun _ => some []) 0 24) := by
  have h := extraction_loop_spec "v" (fun _ => some [])
  refine ⟨?_, h.2.1⟩
  have hn : firstSucc "v" (fun _ => some []) 0 24 = none :=
    h.2.2.2.1.mpr (fun i _ => rfl)
  rw [h.1, hn]
  rfl

/-! ## Run coordinator (archiver.py, `run_once`, playlist/item loops) -/

/-- Outcome of a collaborator call: success, `HttpError`, or `RefreshError`. -/
inductive FetchResult (α : Type) where
  | ok (val : α)
  | httpError
  | refreshError
deriving DecidableEq

/-- One `playlistItems` entry; `videoId` may be absent. -/
structure PlaylistEntry where
  videoId : Option String
deriving DecidableEq

/-- Per-item environment: `get_video_metadata` outcome (`ok none` models an
empty items response) and the `download_with_ytdlp` outcome. -/
structure ItemEnv where
  metaFetch : FetchResult (Option String)
  dlResult : Option String
deriving DecidableEq

/-- Pipeline actions the item loop can take; embedding and conversion run
inside extraction, copying is dispatched after it. -/
inductive RunEvent where
  | extractionStarted (vid : String)
  | copyDispatched (vid : String)
deriving DecidableEq

/-- State threaded through the run loop: the recorded failure display
names, the trace of pipeline actions, the ledger contents seen by the
dedup `SELECT`, and per-account client usability (`yt_clients`). -/
structure RunState where
  failures : List String
  events : List RunEvent
  ledger : List String
  clients : String → Bool

/-- `yt_clients[account] = None`. -/
def setClient (cl : String → Bool) (account : String) (b : Bool) :
    String → Bool :=
  fun a => if a = account then b else cl a

/-- Lines 565–598 for one entry: missing id ⇒ skip; id in the ledger ⇒
skip before any extraction; metadata `HttpError` ⇒ skip item; metadata
`RefreshError` ⇒ record an auth failure, disable the account, `break`;
no metadata ⇒ skip; otherwise extract, recording the title in the failure
list when extraction returns no file, else dispatch the background copy.
The boolean result signals the `break`. -/
def processEntry (st : RunState) (account : String) (entry : PlaylistEntry)
    (env : ItemEnv) : RunState × Bool :=
  match entry.videoId with
  | none => (st, false)
  | some vid =>
    if vid ∈ st.ledger then (st, false)
    else
      match env.metaFetch with
      | .httpError => (st, false)
      | .refreshError =>
        ({ st with failures := st.failures ++ [vid ++ " (auth)"],
                   clients := setClient st.clients account false }, true)
      | .ok none => (st, false)
      | .ok (some title) =>
        let st1 :=
          { st with events := st.events ++ [RunEvent.extractionStarted vid] }
        match env.dlResult with
        | none => ({ st1 with failures := st1.failures ++ [title] }, false)
        | some _ =>
          ({ st1 with events := st1.events ++ [RunEvent.copyDispatched vid] },
            false)

/-- `for entry in videos`, honoring the `break` on a refresh error. -/
def processItems (st : RunState) (account : String) :
    List (PlaylistEntry × ItemEnv) → RunState
  | [] => st
  | (entry, env) :: rest =>
    let r := processEntry st account entry env
    if r.2 then r.1 else processItems r.1 account rest

/-- One configured playlist. -/
structure PlaylistCfg where
  playlist_id : String
  account : String
deriving DecidableEq

/-- Lines 542–563 for one playlist: an unusable client records an auth
failure and skips; a listing `HttpError` is logged and skipped with
`continue` only; a listing `RefreshError` records an auth failure and
disables the account; otherwise the item loop runs. -/
def processPlaylist (st : RunState) (pl : PlaylistCfg)
    (fetch : FetchResult (List (PlaylistEntry × ItemEnv))) : RunState :=
  if st.clients pl.account = false then
    { st with failures := st.failures ++ [pl.playlist_id ++ " (auth)"] }
  else
    match fetch with
    | .httpError => st
    | .refreshError =>
      { st with failures := st.failures ++ [pl.playlist_id ++ " (auth)"],
                clients := setClient st.clients pl.account false }
    | .ok items => processItems st pl.account items

/-- `for pl in playlists`. -/
def processPlaylists (st : RunState) :
    List (PlaylistCfg × FetchResult (List (PlaylistEntry × ItemEnv))) →
    RunState
  | [] => st
  | (pl, fetch) :: rest => processPlaylists (processPlaylist st pl fetch) rest

/-- Claim C3 counterexample: a playlist whose listing fetch raises
`HttpError` is skipped and the run continues (the second playlist's item is
extracted), but NO failure is recorded in the run's failure list. -/
theorem playlist_fetch_failure_counterexample :
    (processPlaylists ⟨[], [], [], fun _ => true⟩
        [(⟨"PL1", "acct"⟩, .httpError),
         (⟨"PL2", "acct"⟩,
           .ok [(⟨some "v2"⟩, ⟨.ok (some "T2"), some "f"⟩)])]).failures = [] ∧
    (processPlaylists ⟨[], [], [], fun _ => true⟩
        [(⟨"PL1", "acct"⟩, .httpError),
         (⟨"PL2", "acct"⟩,
           .ok [(⟨some "v2"⟩, ⟨.ok (some "T2"), some "f"⟩)])]).events =
      [.extractionStarted "v2", .copyDispatched "v2"] := by
  constructor <;> rfl

/-- Claim C3 (amended): when the playlist listing fetch fails with a
generic `HttpError`, the playlist is skipped with the run state — failure
list included — unchanged, and the run continues with the remaining
playlists; no entry is appended to the run's failure list (only an
auth-refresh failure appends one). -/
theorem playlist_fetch_failure_skips (st : RunState) (pl : PlaylistCfg)
    (rest : List (PlaylistCfg × FetchResult (List (PlaylistEntry × ItemEnv))))
    (h : st.clients pl.account = true) :
    processPlaylist st pl .httpError = st ∧
    processPlaylists st ((pl, .httpError) :: rest) =
      processPlaylists st rest := by
  have h1 : processPlaylist st pl FetchResult.httpError = st := by
    rw [processPlaylist, if_neg (by simp [h])]
  refine ⟨h1, ?_⟩
  show processPlaylists (processPlaylist st pl FetchResult.httpError) rest =
    processPlaylists st rest
  rw [h1]

/-- Claim C3 (amended) witness. -/
theorem playlist_fetch_failure_skips_witness :
    processPlaylist ⟨[], [], [], fun _ => true⟩ ⟨"PL1", "acct"⟩ .httpError =
      (⟨[], [], [], fun _ => true⟩ : RunState) :=
  (playlist_fetch_failure_skips ⟨[], [], [], fun _ => true⟩ ⟨"PL1", "acct"⟩
    [] rfl).1

/-- Claim C7: an identifier already present in the ledger is skipped before
any extraction work: the state (events, failures, ledger, clients) is
returned unchanged, so no extraction, embedding, conversion, or copy is
invoked for it. -/
theorem ledger_dedup_skips (st : RunState) (account : String)
    (entry : PlaylistEntry) (env : ItemEnv) (vid : String)
    (hvid : entry.videoId = some vid) (hmem : vid ∈ st.ledger) :
    processEntry st account entry env = (st, false) ∧
    (processEntry st account entry env).1.events = st.events := by
  have h1 : processEntry st account entry env = (st, false) := by
    simp only [processEntry, hvid]
    rw [if_pos hmem]
  exact ⟨h1, by rw [h1]⟩

/-- Claim C7 witness. -/
theorem ledger_dedup_skips_witness :
    processEntry ⟨[], [], ["v1"], fun _ => true⟩ "acct" ⟨some "v1"⟩
      ⟨.ok (some "T"), some "f"⟩ =
      ((⟨[], [], ["v1"], fun _ => true⟩ : RunState), false) :=
  (ledger_dedup_skips ⟨[], [], ["v1"], fun _ => true⟩ "acct" ⟨some "v1"⟩
    ⟨.ok (some "T"), some "f"⟩ "v1" rfl (by simp)).1

/-! ## Copy completion callback (archiver.py, `after_copy`) -/

/-- A `downloads` ledger row (the timestamp is elided). -/
structure DownloadRecord where
  video_id : String
  playlist_id : String
  filepath : String
deriving DecidableEq

/-- State the completion callback touches: the run summary lists, the
ledger, the existing scratch directories, and playlist entries removed
upstream. -/
structure CopyCbState where
  successes : List String
  failures : List String
  ledgerRows : List DownloadRecord
  scratchDirs : List String
  removedEntries : List String
deriving DecidableEq

/-- `after_copy` (lines 622–649): on success append the display name to the
success list and insert the ledger row (`dbOk = false` models the swallowed
insert exception); on failure append the display name to the failure list;
in both cases `shutil.rmtree(temp)`; only on success with the removal flag
and a handle request the playlist-entry removal. -/
def after_copy (success : Bool) (dst : String) (video_id playlist : String)
    (entry_id : Option String) (temp : String) (remove : Bool)
    (cleaned_name : String) (dbOk : Bool) (st : CopyCbState) : CopyCbState :=
  if success then
    let st1 := { st with successes := st.successes ++ [cleaned_name] }
    let st2 :=
      if dbOk then
        { st1 with ledgerRows := st1.ledgerRows ++ [⟨video_id, playlist, dst⟩] }
      else st1
    let st3 := { st2 with scratchDirs := st2.scratchDirs.erase temp }
    match entry_id with
    | some eid =>
      if remove then
        { st3 with removedEntries := st3.removedEntries ++ [eid] }
      else st3
    | none => st3
  else
    let st1 := { st with failures := st.failures ++ [cleaned_name] }
    { st1 with scratchDirs := st1.scratchDirs.erase temp }

/-- Claim C6: when the background copy fails, the callback appends the
item's display name to the run's failure list, inserts no ledger row,
still purges the item's scratch directory, and touches nothing else — so
the identifier stays absent from the ledger and is retried next run. -/
theorem copy_failure_callback (dst video_id playlist : String)
    (entry_id : Option String) (temp : String) (remove : Bool)
    (cleaned_name : String) (dbOk : Bool) (st : CopyCbState) :
    (after_copy false dst video_id playlist entry_id temp remove cleaned_name
        dbOk st).failures = st.failures ++ [cleaned_name] ∧
    (after_copy false dst video_id playlist entry_id temp remove cleaned_name
        dbOk st).ledgerRows = st.ledgerRows ∧
    (after_copy false dst video_id playlist entry_id temp remove cleaned_name
        dbOk st).scratchDirs = st.scratchDirs.erase temp ∧
    (after_copy false dst video_id playlist entry_id temp remove cleaned_name
        dbOk st).successes = st.successes ∧
    (after_copy false dst video_id playlist entry_id temp remove cleaned_name
        dbOk st).removedEntries = st.removedEntries :=
  ⟨rfl, rfl, rfl, rfl, rfl⟩

/-! ## Attempt plan (engine.core, `_build_download_attempt_plan`) -/

/-- The `FORMAT_WEBM` selector string of `download_with_ytdlp`. -/
def FORMAT_WEBM : String :=
  "bestvideo[ext=webm][height<=1080]+bestaudio[ext=webm]/" ++
    "bestvideo[ext=webm][height<=720]+bestaudio[ext=webm]/" ++
    "bestvideo[ext=mp4][height<=1080]+bestaudio[ext=m4a]/" ++
    "bestvideo[ext=mp4][height<=720]+bestaudio[ext=m4a]"

/-- One step of an AttemptPlan: an optional extractor-specific override and
a format selector. -/
structure AttemptStep where
  extractor_args : Option String
  format : String
deriving DecidableEq

/-- The generic best-quality fallback selector. -/
def BEST_FALLBACK : String := "bestvideo+bestaudio/best"

/-- Modelled from the spec: `engine.core._build_download_attempt_plan` is
not among the sources (only its unit test is).  Per the spec, the plan
built for a strictness mode is an ordered sequence of extraction attempts
that, independent of the mode, contains at least one attempt with no
extractor-specific override ("default") and at least one attempt whose
format selector is the generic best-quality fallback: mode-specific
override steps followed by the default best-quality step. -/
def build_download_attempt_plan (mode : String) : List AttemptStep :=
  (if mode = "strict" then
    [⟨some "player_client=android", FORMAT_WEBM⟩]
  else
    [⟨some "player_client=android", FORMAT_WEBM⟩,
      ⟨some "player_client=web", FORMAT_WEBM⟩]) ++
  [⟨none, BEST_FALLBACK⟩]

/-- Claim C2: for every strictness mode, the attempt plan contains at least
one step with no extractor-specific override and at least one step whose
format selector is the generic best-quality fallback. -/
theorem attempt_plan_has_default_and_best (mode : String) :
    (∃ step ∈ build_download_attempt_plan mode, step.extractor_args = none) ∧
    (∃ step ∈ build_download_attempt_plan mode, step.format = BEST_FALLBACK) := by
  constructor
  · refine ⟨⟨none, BEST_FALLBACK⟩, ?_, rfl⟩
    rw [build_download_attempt_plan]
    exact List.mem_append_right _ (List.mem_singleton.mpr rfl)
  · refine ⟨⟨none, BEST_FALLBACK⟩, ?_, rfl⟩
    rw [build_download_attempt_plan]
    exact List.mem_append_right _ (List.mem_singleton.mpr rfl)
